import Mathlib

/-!
Shallow embedding of the selection-and-transform core of the pixi-editor
repository, together with proofs about its claims.

Conventions:
* JS numbers are modelled as rationals (`ℚ`); the claims under study are about
  exact arithmetic on coordinates, not floating-point rounding.
* Mutable objects become explicit state records; `eventBus.emit` becomes an
  append to an explicit event log.
* Each definition names the source construct it embeds.
-/

namespace PixiEditor

/-! ### BaseElement: reactive properties, `emitChange`, undo/redo closures
    (src/elements/BaseElement.ts, src/elements/ImageElement.ts) -/

/-- The mutable properties of a scene element covered by the reactive-setter
contract: the `BaseElement` setters `x`, `y`, `rotation`, `zIndex`, `visible`,
`interactable`, `opacity` plus the `ImageElement` overrides `width`/`height`
(which follow the identical guarded pattern over the sprite's stored size). -/
inductive PropName
  | x | y | rotation | zIndex | visible | interactable | opacity | width | height
deriving DecidableEq, Repr

/-- A property value: the numeric properties hold numbers, `visible` and
`interactable` hold booleans. -/
inductive Val
  | num (q : ℚ)
  | bool (b : Bool)
deriving DecidableEq, Repr

/-- `typeOk p v` holds when `v` is a value of the type that the TS setter for
property `p` accepts (`boolean` for `visible`/`interactable`, `number`
otherwise). -/
def typeOk : PropName → Val → Bool
  | .visible, .bool _ => true
  | .interactable, .bool _ => true
  | .visible, .num _ => false
  | .interactable, .num _ => false
  | _, .num _ => true
  | _, .bool _ => false

/-- The stored property state of an element: the private backing fields of
`BaseElement` (`_x`, `_y`, `_rotation`, `_zIndex`, `_visible`,
`_interactable`, `_opacity`) plus the sprite-backed `width`/`height` of
`ImageElement`. -/
structure Element where
  x : ℚ := 0
  y : ℚ := 0
  rotation : ℚ := 0
  zIndex : ℚ := 0
  visible : Bool := true
  interactable : Bool := true
  opacity : ℚ := 1
  width : ℚ := 0
  height : ℚ := 0
deriving DecidableEq, Repr

/-- Property read (the TS getters). -/
def getProp (el : Element) : PropName → Val
  | .x => .num el.x
  | .y => .num el.y
  | .rotation => .num el.rotation
  | .zIndex => .num el.zIndex
  | .visible => .bool el.visible
  | .interactable => .bool el.interactable
  | .opacity => .num el.opacity
  | .width => .num el.width
  | .height => .num el.height

/-- The raw field write performed by a setter once its equality guard has
passed. A type-mismatched write (impossible through the typed TS setters)
leaves the element unchanged. -/
def assign (el : Element) : PropName → Val → Element
  | .x, .num q => { el with x := q }
  | .y, .num q => { el with y := q }
  | .rotation, .num q => { el with rotation := q }
  | .zIndex, .num q => { el with zIndex := q }
  | .visible, .bool b => { el with visible := b }
  | .interactable, .bool b => { el with interactable := b }
  | .opacity, .num q => { el with opacity := q }
  | .width, .num q => { el with width := q }
  | .height, .num q => { el with height := q }
  | _, _ => el

/-- Events emitted on the engine event bus by a property setter:
`element:changed` and `action:performed` from `BaseElement.emitChange`, and
`element:zChanged` which the `zIndex` setter additionally emits. The
`action:performed` payload carries the data captured by the recorded
`UndoableAction`'s closures (property, old value, new value). -/
inductive BEvent
  | changed (p : PropName) (oldVal newVal : Val)
  | actionPerformed (p : PropName) (oldVal newVal : Val)
  | zChanged (oldVal newVal : Val)
deriving DecidableEq, Repr

/-- `true` exactly on `action:performed` events. -/
def isActionEvent : BEvent → Bool
  | .actionPerformed _ _ _ => true
  | _ => false

/-- State of one attached element together with the engine pieces the setter
contract touches: the shared suppression flag `engine._suppressActions` and
the event-bus log. (The claims are about attached scene elements, for which
`this.engine` is non-null.) -/
structure EState where
  el : Element
  suppress : Bool
  events : List BEvent
deriving DecidableEq, Repr

/-- The guarded reactive setter: `BaseElement`'s `set x` (and its eight
siblings) followed by `emitChange`. No-op when the new value equals the old
(`old === value`); otherwise it writes the field, emits `element:changed`,
emits `action:performed` unless `engine._suppressActions` is set, and — for
`zIndex` only — additionally emits `element:zChanged`. -/
def setProp (p : PropName) (v : Val) (s : EState) : EState :=
  let old := getProp s.el p
  if old = v then s
  else
    let s1 : EState :=
      { s with el := assign s.el p v, events := s.events ++ [.changed p old v] }
    let s2 : EState :=
      if s1.suppress then s1
      else { s1 with events := s1.events ++ [.actionPerformed p old v] }
    if p = PropName.zIndex then { s2 with events := s2.events ++ [.zChanged old v] }
    else s2

/-- The `undo()` closure of the `UndoableAction` recorded by
`BaseElement.emitChange`: set `engine._suppressActions`, re-invoke the setter
with the old value, then clear the flag. -/
def runUndo (p : PropName) (oldVal _newVal : Val) (s : EState) : EState :=
  let s1 := setProp p oldVal { s with suppress := true }
  { s1 with suppress := false }

/-- The `redo()` closure of the recorded `UndoableAction`: set
`engine._suppressActions`, re-invoke the setter with the new value, then
clear the flag. -/
def runRedo (p : PropName) (_oldVal newVal : Val) (s : EState) : EState :=
  let s1 := setProp p newVal { s with suppress := true }
  { s1 with suppress := false }

/-! ### SelectionManager.boundsOverlap (src/selection/SelectionManager.ts) -/

/-- An axis-aligned world-space rectangle `{x, y, width, height}`. -/
structure RectW where
  x : ℚ
  y : ℚ
  width : ℚ
  height : ℚ
deriving DecidableEq, Repr

/-- `SelectionManager.boundsOverlap`: the marquee's AABB overlap test
`!(a.x+a.width < b.x || b.x+b.width < a.x || a.y+a.height < b.y ||
b.y+b.height < a.y)`. -/
def boundsOverlap (a b : RectW) : Bool :=
  !(decide (a.x + a.width < b.x) || decide (b.x + b.width < a.x) ||
    decide (a.y + a.height < b.y) || decide (b.y + b.height < a.y))

/-! ### TransformController (src/selection/TransformController.ts) -/

/-- The eight resize-handle identities of `HandlePosition` (the ninth tag,
`rotate`, starts a rotate gesture instead and never reaches
`handleResize`). -/
inductive HandlePos
  | topLeft | topCenter | topRight
  | middleRight | bottomRight | bottomCenter
  | bottomLeft | middleLeft
deriving DecidableEq, Repr

/-- `handle.includes('left')` on the handle tag strings. -/
def hasLeft : HandlePos → Bool
  | .topLeft | .bottomLeft | .middleLeft => true
  | _ => false

/-- `handle.includes('right')` on the handle tag strings. -/
def hasRight : HandlePos → Bool
  | .topRight | .bottomRight | .middleRight => true
  | _ => false

/-- `handle.includes('top')` on the handle tag strings. -/
def hasTop : HandlePos → Bool
  | .topLeft | .topCenter | .topRight => true
  | _ => false

/-- `handle.includes('bottom')` on the handle tag strings. -/
def hasBottom : HandlePos → Bool
  | .bottomLeft | .bottomCenter | .bottomRight => true
  | _ => false

/-- A per-object gesture snapshot `{x, y, width, height, rotation}` as stored
in `elementStartProps`; also the live geometric state of a scene object as
far as the gesture handlers read and write it. -/
structure Snap where
  x : ℚ
  y : ℚ
  width : ℚ
  height : ℚ
  rotation : ℚ
deriving DecidableEq, Repr

/-- The `newX/newY/newW/newH` computation of
`TransformController.handleResize` for one element, up to but not including
the final minimum-extent clamp: per-side delta decomposition followed by the
optional aspect-constrained correction. -/
def resizeRaw (handle : HandlePos) (constrain : Bool) (dx dy : ℚ) (start : Snap) :
    RectW :=
  let aspect := if start.height = 0 then 1 else start.width / start.height
  let newX := if hasLeft handle then start.x + dx else start.x
  let newW :=
    if hasLeft handle then start.width - dx
    else if hasRight handle then start.width + dx
    else start.width
  let newY := if hasTop handle then start.y + dy else start.y
  let newH :=
    if hasTop handle then start.height - dy
    else if hasBottom handle then start.height + dy
    else start.height
  if constrain ∧ 0 < start.width ∧ 0 < start.height then
    let isCorner := (hasLeft handle || hasRight handle) &&
      (hasTop handle || hasBottom handle)
    if isCorner then
      let absDx := |newW - start.width|
      let absDy := |newH - start.height|
      if absDy ≤ absDx / aspect then
        let newH2 := newW / aspect
        let newY2 := if hasTop handle then start.y + start.height - newH2 else newY
        ⟨newX, newY2, newW, newH2⟩
      else
        let newW2 := newH * aspect
        let newX2 := if hasLeft handle then start.x + start.width - newW2 else newX
        ⟨newX2, newY, newW2, newH⟩
    else
      if handle = .middleLeft ∨ handle = .middleRight then
        let centerY := start.y + start.height / 2
        let newH2 := newW / aspect
        ⟨newX, centerY - newH2 / 2, newW, newH2⟩
      else
        let centerX := start.x + start.width / 2
        let newW2 := newH * aspect
        ⟨centerX - newW2 / 2, newY, newW2, newH⟩
  else ⟨newX, newY, newW, newH⟩

/-- The minimum-extent clamp at the end of `handleResize`:
`if (newW < 5) { newW = 5; if (handle.includes('left')) newX = start.x +
start.width - 5; }` and the analogous clamp for the height/top side. -/
def clampMin5 (handle : HandlePos) (start : Snap) (r : RectW) : RectW :=
  let r1 :=
    if r.width < 5 then
      { r with width := 5,
               x := if hasLeft handle then start.x + start.width - 5 else r.x }
    else r
  if r1.height < 5 then
    { r1 with height := 5,
              y := if hasTop handle then start.y + start.height - 5 else r1.y }
  else r1

/-- The full per-element result of one `handleResize` step: raw decomposition
then minimum-extent clamp. -/
def resizeElement (handle : HandlePos) (constrain : Bool) (dx dy : ℚ)
    (start : Snap) : RectW :=
  clampMin5 handle start (resizeRaw handle constrain dx dy start)

/-- Gesture mode (`TransformMode` minus the `'none'` tag, which is modelled
by `dragState = none`). -/
inductive TMode
  | move | resize | rotate
deriving DecidableEq, Repr

/-- `DragState`: gesture mode, world-space gesture origin, optional active
handle, and the `elementStartProps` id-keyed snapshot map (modelled as an
association list, looked up with `List.lookup` like `Map.get`). -/
structure DragState where
  mode : TMode
  startX : ℚ
  startY : ℚ
  handlePos : Option HandlePos
  startProps : List (ℕ × Snap)
deriving DecidableEq, Repr

/-- A pointer event, already converted to world coordinates (the `toWorld`
inverse transform through the content root is the identity on the world
point it produces). -/
structure PEvent where
  wx : ℚ
  wy : ℚ
  shiftKey : Bool
deriving DecidableEq, Repr

/-- The `interaction:*` events the controller emits on the event bus.
Elements are referenced by id. -/
inductive TEvent
  | dragStart (firstId : ℕ)
  | resizeStart (firstId : ℕ)
  | rotateStart (firstId : ℕ)
  | dragMove (ids : List ℕ) (dx dy : ℚ)
  | dragEnd (ids : List ℕ)
  | resizeEnd (firstId : ℕ)
  | rotateEnd (firstId : ℕ)
deriving DecidableEq, Repr

/-- `TransformController` state plus the world of scene objects it mutates:
`elements` maps an object id to its live `{x,y,width,height,rotation}`
state, and `events` logs the controller's event-bus emissions. (The
element-level `element:changed`/`action:performed` emissions triggered by
the property writes are modelled separately by `setProp`.) -/
structure TCState where
  elements : ℕ → Snap
  dragState : Option DragState
  activeElements : List ℕ
  events : List TEvent

/-- The snapshot loop shared by the three gesture starters. -/
def snapshotOf (s : TCState) (ids : List ℕ) : List (ℕ × Snap) :=
  ids.map fun i => (i, s.elements i)

/-- `TransformController.startMove`. -/
def startMove (ids : List ℕ) (ev : PEvent) (s : TCState) : TCState :=
  { s with
    activeElements := ids,
    dragState := some ⟨.move, ev.wx, ev.wy, none, snapshotOf s ids⟩,
    events := s.events ++
      match ids with
      | [] => []
      | i :: _ => [TEvent.dragStart i] }

/-- `TransformController.startResize`. -/
def startResize (ids : List ℕ) (handle : HandlePos) (ev : PEvent) (s : TCState) :
    TCState :=
  { s with
    activeElements := ids,
    dragState := some ⟨.resize, ev.wx, ev.wy, some handle, snapshotOf s ids⟩,
    events := s.events ++
      match ids with
      | [] => []
      | i :: _ => [TEvent.resizeStart i] }

/-- `TransformController.startRotate`. -/
def startRotate (ids : List ℕ) (ev : PEvent) (s : TCState) : TCState :=
  { s with
    activeElements := ids,
    dragState := some ⟨.rotate, ev.wx, ev.wy, none, snapshotOf s ids⟩,
    events := s.events ++
      match ids with
      | [] => []
      | i :: _ => [TEvent.rotateStart i] }

/-- The `for (const el of this.activeElements)` loop of `handleMove`:
`el.x = start.x + dx; el.y = start.y + dy` for every active element with a
snapshot. -/
def moveFold (ds : DragState) (dx dy : ℚ) (ids : List ℕ) (els : ℕ → Snap) :
    ℕ → Snap :=
  match ids with
  | [] => els
  | i :: rest =>
      match ds.startProps.lookup i with
      | some st =>
          moveFold ds dx dy rest fun j =>
            if j = i then { els j with x := st.x + dx, y := st.y + dy } else els j
      | none => moveFold ds dx dy rest els

/-- `TransformController.handleMove`. -/
def handleMove (ev : PEvent) (ds : DragState) (s : TCState) : TCState :=
  let dx := ev.wx - ds.startX
  let dy := ev.wy - ds.startY
  { s with elements := moveFold ds dx dy s.activeElements s.elements,
           events := s.events ++ [.dragMove s.activeElements dx dy] }

/-- The per-element loop of `handleResize`: each active element with a
snapshot receives the clamped resize result through its `x`/`y`/`width`/
`height` setters. -/
def resizeFold (ds : DragState) (handle : HandlePos) (constrain : Bool)
    (dx dy : ℚ) (ids : List ℕ) (els : ℕ → Snap) : ℕ → Snap :=
  match ids with
  | [] => els
  | i :: rest =>
      match ds.startProps.lookup i with
      | some st =>
          let r := resizeElement handle constrain dx dy st
          resizeFold ds handle constrain dx dy rest fun j =>
            if j = i then
              { els j with x := r.x, y := r.y, width := r.width, height := r.height }
            else els j
      | none => resizeFold ds handle constrain dx dy rest els

/-- `TransformController.handleResize` (no-op when no handle is recorded,
mirroring the `!this.dragState.handlePosition` guard). -/
def handleResize (ev : PEvent) (ds : DragState) (s : TCState) : TCState :=
  match ds.handlePos with
  | none => s
  | some handle =>
      let dx := ev.wx - ds.startX
      let dy := ev.wy - ds.startY
      { s with elements :=
          resizeFold ds handle ev.shiftKey dx dy s.activeElements s.elements }

/-- The per-element loop of `handleRotate`. The transcendental `atan2` of
`angleBetweenPoints` is not representable over ℚ, so the rotation model is
parametrised by an arbitrary `atan2 : ℚ → ℚ → ℚ`; every theorem below holds
for all such functions. -/
def rotateFold (atan2 : ℚ → ℚ → ℚ) (ds : DragState) (wx wy : ℚ)
    (ids : List ℕ) (els : ℕ → Snap) : ℕ → Snap :=
  match ids with
  | [] => els
  | i :: rest =>
      match ds.startProps.lookup i with
      | some st =>
          let cx := (els i).x + (els i).width / 2
          let cy := (els i).y + (els i).height / 2
          let angle := atan2 (wy - cy) (wx - cx)
          let startAngle := atan2 (ds.startY - cy) (ds.startX - cx)
          rotateFold atan2 ds wx wy rest fun j =>
            if j = i then { els j with rotation := st.rotation + (angle - startAngle) }
            else els j
      | none => rotateFold atan2 ds wx wy rest els

/-- `TransformController.handleRotate`. -/
def handleRotate (atan2 : ℚ → ℚ → ℚ) (ev : PEvent) (ds : DragState)
    (s : TCState) : TCState :=
  { s with elements :=
      rotateFold atan2 ds ev.wx ev.wy s.activeElements s.elements }

/-- `TransformController.onPointerMove`: dispatch on the active mode. -/
def onPointerMove (atan2 : ℚ → ℚ → ℚ) (ev : PEvent) (s : TCState) : TCState :=
  match s.dragState with
  | none => s
  | some ds =>
      match ds.mode with
      | .move => handleMove ev ds s
      | .resize => handleResize ev ds s
      | .rotate => handleRotate atan2 ev ds s

/-- `TransformController.onPointerUp`: emit the mode-specific end event when
the gesture has at least one object, then clear the gesture state. -/
def onPointerUp (s : TCState) : TCState :=
  match s.dragState with
  | none => s
  | some ds =>
      let ended :=
        match ds.mode, s.activeElements with
        | _, [] => []
        | .move, ids => [TEvent.dragEnd ids]
        | .resize, i :: _ => [TEvent.resizeEnd i]
        | .rotate, i :: _ => [TEvent.rotateEnd i]
      { s with events := s.events ++ ended, dragState := none, activeElements := [] }

/-- The revert loop of `TransformController.cancel`: for each active element
with a snapshot, `el.x = start.x; el.y = start.y`. -/
def cancelFold (ds : DragState) (ids : List ℕ) (els : ℕ → Snap) : ℕ → Snap :=
  match ids with
  | [] => els
  | i :: rest =>
      match ds.startProps.lookup i with
      | some st =>
          cancelFold ds rest fun j =>
            if j = i then { els j with x := st.x, y := st.y } else els j
      | none => cancelFold ds rest els

/-- `TransformController.cancel`: revert positions to the snapshot, clear the
gesture state; no event is emitted. -/
def cancel (s : TCState) : TCState :=
  match s.dragState with
  | none => s
  | some ds =>
      { s with elements := cancelFold ds s.activeElements s.elements,
               dragState := none, activeElements := [] }

/-! ### SelectionManager selection set & clipboard
    (src/selection/SelectionManager.ts, src/managers/SerializationManager.ts,
     src/managers/ElementManager.ts) -/

/-- The serialized element type tag (`data.type`). `other` stands for any
string not registered in the `ElementRegistry`. -/
inductive EType
  | text | image | shape | other (tag : ℕ)
deriving DecidableEq, Repr

/-- `ElementRegistry` membership: `text`, `image` and `shape` are registered
by the `SerializationManager` constructor; anything else is unknown. -/
def registryHas : EType → Bool
  | .text | .image | .shape => true
  | .other _ => false

/-- The part of a `SerializedElement` that the clipboard/paste path
manipulates (type tag, id, position); the pasted `BaseElement` is identified
with its serialized data. -/
structure SerEl where
  typ : EType
  id : ℕ
  x : ℚ
  y : ℚ
deriving DecidableEq, Repr

/-- `SerializationManager.deserializeElement`: `null` when the type is not in
the registry, otherwise an element built from the data via `fromJSON`. -/
def deserializeElement (d : SerEl) : Option SerEl :=
  if registryHas d.typ then some d else none

/-- Events observable on the bus from the selection/clipboard path. -/
inductive SEvent
  | selectionChanged (sel : List ℕ)
  | selectionCleared
  | elementAdded (id : ℕ)
deriving DecidableEq, Repr

/-- `SelectionManager` + `ElementManager` state as the selection/clipboard
claims need it: the selection set (a JS `Set`, modelled as its
insertion-order list of ids), the clipboard (parsed entries), the scene
contents, the uid counter behind `generateUid`, and the event log.
`hasSerializer` records whether `setSerializationManager` was called. -/
structure SMState where
  selected : List ℕ
  clipboard : List SerEl
  hasSerializer : Bool
  scene : List SerEl
  nextUid : ℕ
  events : List SEvent
deriving DecidableEq, Repr

/-- `SelectionManager.addToSelection`: `Set.add` (a no-op on the set when the
id is already present) followed unconditionally by a `selection:changed`
emission. -/
def addToSelection (i : ℕ) (s : SMState) : SMState :=
  let sel := if i ∈ s.selected then s.selected else s.selected ++ [i]
  { s with selected := sel, events := s.events ++ [.selectionChanged sel] }

/-- `SelectionManager.deselect`: `Set.delete` (a no-op on the set when the id
is absent) followed unconditionally by a `selection:changed` emission. -/
def deselect (i : ℕ) (s : SMState) : SMState :=
  let sel := s.selected.erase i
  { s with selected := sel, events := s.events ++ [.selectionChanged sel] }

/-- `SelectionManager.clearSelection`: no-op when empty, else clear and emit
`selection:cleared`. -/
def clearSelection (s : SMState) : SMState :=
  if s.selected = [] then s
  else { s with selected := [], events := s.events ++ [.selectionCleared] }

/-- `ElementManager.add`: skip when an element with this id is already
registered, else append to the scene and emit `element:added`. -/
def emAdd (e : SerEl) (s : SMState) : SMState :=
  if e.id ∈ s.scene.map SerEl.id then s
  else { s with scene := s.scene ++ [e], events := s.events ++ [.elementAdded e.id] }

/-- The `for (const json of this.clipboard)` loop of
`SelectionManager.pasteClipboard`: regenerate the id (`generateUid`), offset
the position by (+20,+20), deserialize, and on success add to the scene and
to the selection. -/
def pasteLoop (entries : List SerEl) (s : SMState) : SMState :=
  match entries with
  | [] => s
  | d :: rest =>
      let d' : SerEl := { d with id := s.nextUid, x := d.x + 20, y := d.y + 20 }
      let s1 := { s with nextUid := s.nextUid + 1 }
      let s2 :=
        match deserializeElement d' with
        | some el => addToSelection el.id (emAdd el s1)
        | none => s1
      pasteLoop rest s2

/-- `SelectionManager.pasteClipboard`: immediate return when the clipboard is
empty or no serializer is configured; otherwise clear the selection and run
the paste loop. -/
def pasteClipboard (s : SMState) : SMState :=
  if s.clipboard = [] ∨ s.hasSerializer = false then s
  else pasteLoop s.clipboard (clearSelection s)

/-- Specification of what one run of the paste loop appends to the scene:
each registered entry with its regenerated id and (+20,+20) offset, in
clipboard order; unregistered entries are skipped (the uid is still
consumed, as in the source). -/
def pastedFrom : List SerEl → ℕ → List SerEl
  | [], _ => []
  | d :: rest, u =>
      if registryHas d.typ then
        { d with id := u, x := d.x + 20, y := d.y + 20 } :: pastedFrom rest (u + 1)
      else pastedFrom rest (u + 1)

/-! ### ZOrderManager (src/managers/ZOrderManager.ts) -/

/-- A scene entry for z-ordering: element id paired with its `zIndex`; the
scene list is in `ElementManager` insertion order. -/
abbrev ZEntry := ℕ × ℚ

/-- The ordering used by `getSortedByZ`'s comparator
`(a, b) => a.zIndex - b.zIndex`. -/
def zle (a b : ZEntry) : Prop := a.2 ≤ b.2

instance : DecidableRel zle := fun a b => inferInstanceAs (Decidable (a.2 ≤ b.2))

instance : IsTotal ZEntry zle := ⟨fun a b => le_total a.2 b.2⟩

instance : IsTrans ZEntry zle := ⟨fun _ _ _ h1 h2 => le_trans h1 h2⟩

/-- Strict version of `zle`, used to identify sorted orders uniquely when all
`zIndex` keys are distinct. -/
def zlt (a b : ZEntry) : Prop := a.2 < b.2

instance : IsAntisymm ZEntry zlt :=
  ⟨fun _ _ h1 h2 => absurd (lt_trans h1 h2) (lt_irrefl _)⟩

/-- `ZOrderManager.getSortedByZ`: all elements sorted ascending by `zIndex`.
JS `Array.prototype.sort` is stable, as is insertion sort. -/
def sortZ (l : List ZEntry) : List ZEntry := l.insertionSort zle

/-- Assignment through the `zIndex` setter of the (unique) element with id
`i`: elements are mutated in place, so the scene list is mapped. -/
def setZ (l : List ZEntry) (i : ℕ) (z : ℚ) : List ZEntry :=
  l.map fun p => if p.1 = i then (p.1, z) else p

/-- `all.indexOf(element)`: index of the entry with the element's id (the
list length when absent — together with `nthZ` returning `none` there, this
models JS `indexOf` returning `-1` and the guards that follow it). -/
def idxOfZ (eid : ℕ) : List ZEntry → ℕ
  | [] => 0
  | p :: rest => if p.1 = eid then 0 else idxOfZ eid rest + 1

/-- `all[i]`, as an `Option` for out-of-range access. -/
def nthZ : List ZEntry → ℕ → Option ZEntry
  | [], _ => none
  | p :: _, 0 => some p
  | _ :: rest, n + 1 => nthZ rest n

/-- `ZOrderManager.moveForward`: locate the element in ascending z-order and
swap its `zIndex` with its immediate successor's; no-op when absent or
already last. -/
def moveForward (l : List ZEntry) (eid : ℕ) : List ZEntry :=
  let all := sortZ l
  let idx := idxOfZ eid all
  match nthZ all idx, nthZ all (idx + 1) with
  | some e, some next =>
      let nextZ := next.2
      setZ (setZ l next.1 e.2) eid nextZ
  | _, _ => l

/-- `ZOrderManager.moveBackward`: locate the element in ascending z-order and
swap its `zIndex` with its immediate predecessor's; no-op when absent or
already first. -/
def moveBackward (l : List ZEntry) (eid : ℕ) : List ZEntry :=
  let all := sortZ l
  let idx := idxOfZ eid all
  if idx = 0 then l
  else
    match nthZ all idx, nthZ all (idx - 1) with
    | some e, some prev =>
        let prevZ := prev.2
        setZ (setZ l prev.1 e.2) eid prevZ
    | _, _ => l

/-! ## Theorems -/

/-- C4 counterexample: two rectangles touching exactly at an edge
(`a.right == b.left`, here at x = 10, with overlapping y-ranges) DO satisfy
`boundsOverlap`, contrary to the claim that touching edges do not overlap:
the test uses strict `<`, so equality falsifies every disjunct. -/
theorem touching_edges_overlap :
    boundsOverlap ⟨0, 0, 10, 10⟩ ⟨10, 0, 10, 10⟩ = true := by
  norm_num [boundsOverlap]

/-- C4 (amended): `boundsOverlap` is exactly
`!(a.right<b.left || b.right<a.left || a.bottom<b.top || b.bottom<a.top)`;
disjoint rectangles (`a.right < b.left`) never overlap; rectangles of
non-negative width touching exactly at an edge (`a.right = b.left`) and not
separated vertically DO overlap; and any pair overlapping with positive
extent on both axes overlaps. -/
theorem boundsOverlap_characterization (a b : RectW) :
    (boundsOverlap a b = true ↔
      ¬(a.x + a.width < b.x ∨ b.x + b.width < a.x ∨
        a.y + a.height < b.y ∨ b.y + b.height < a.y)) ∧
    (a.x + a.width < b.x → boundsOverlap a b = false) ∧
    (0 ≤ a.width → 0 ≤ b.width → a.x + a.width = b.x →
      ¬(a.y + a.height < b.y) → ¬(b.y + b.height < a.y) →
      boundsOverlap a b = true) ∧
    (a.x < b.x + b.width → b.x < a.x + a.width →
      a.y < b.y + b.height → b.y < a.y + a.height →
      boundsOverlap a b = true) := by
  refine ⟨?_, ?_, ?_, ?_⟩
  · simp [boundsOverlap, not_or]
    tauto
  · intro h
    simp [boundsOverlap, h]
  · intro haw hbw hx hy1 hy2
    simp only [boundsOverlap, Bool.not_eq_true', Bool.or_eq_false_iff,
      decide_eq_false_iff_not, not_lt]
    refine ⟨⟨⟨le_of_eq hx.symm, ?_⟩, le_of_not_lt hy1⟩, le_of_not_lt hy2⟩
    have : a.x ≤ b.x := by linarith
    linarith
  · intro h1 h2 h3 h4
    simp only [boundsOverlap, Bool.not_eq_true', Bool.or_eq_false_iff,
      decide_eq_false_iff_not, not_lt]
    exact ⟨⟨⟨by linarith, by linarith⟩, by linarith⟩, by linarith⟩

/-- Witness for `boundsOverlap_characterization` at concrete rectangles. -/
theorem boundsOverlap_characterization_witness :
    boundsOverlap ⟨0, 0, 10, 10⟩ ⟨20, 0, 5, 5⟩ = false ∧
    boundsOverlap ⟨0, 0, 10, 10⟩ ⟨10, 2, 4, 4⟩ = true ∧
    boundsOverlap ⟨0, 0, 10, 10⟩ ⟨5, 5, 10, 10⟩ = true := by
  refine ⟨(boundsOverlap_characterization ⟨0, 0, 10, 10⟩ ⟨20, 0, 5, 5⟩).2.1 (by norm_num),
    (boundsOverlap_characterization ⟨0, 0, 10, 10⟩ ⟨10, 2, 4, 4⟩).2.2.1
      (by norm_num) (by norm_num) (by norm_num) (by norm_num) (by norm_num),
    (boundsOverlap_characterization ⟨0, 0, 10, 10⟩ ⟨5, 5, 10, 10⟩).2.2.2
      (by norm_num) (by norm_num) (by norm_num) (by norm_num)⟩

/-- C10: with an empty clipboard (or no serializer configured),
`pasteClipboard` returns before touching anything: the whole state —
selection, scene, clipboard, uid counter and event log — is unchanged, so in
particular the prior selection is not cleared and no event is emitted. -/
theorem pasteClipboard_noop (s : SMState)
    (h : s.clipboard = [] ∨ s.hasSerializer = false) :
    pasteClipboard s = s := by
  rcases h with h | h <;> simp [pasteClipboard, h]

/-- Witness for `pasteClipboard_noop` at a concrete state with a non-empty
selection and empty clipboard. -/
theorem pasteClipboard_noop_witness :
    pasteClipboard ⟨[3, 4], [], true, [], 9, []⟩ = ⟨[3, 4], [], true, [], 9, []⟩ :=
  pasteClipboard_noop ⟨[3, 4], [], true, [], 9, []⟩ (Or.inl rfl)

/-- C5 counterexample: re-adding the already-selected id 7 leaves the
selection set unchanged but still emits a `selection:changed` event, contrary
to the claim that no selection event is emitted. -/
theorem addToSelection_redundant_emits_event :
    (addToSelection 7 ⟨[7], [], true, [], 0, []⟩).selected = [7] ∧
    (addToSelection 7 ⟨[7], [], true, [], 0, []⟩).events =
      [SEvent.selectionChanged [7]] ∧
    (addToSelection 7 ⟨[7], [], true, [], 0, []⟩).events ≠
      (⟨[7], [], true, [], 0, []⟩ : SMState).events := by
  refine ⟨?_, ?_, ?_⟩ <;> simp [addToSelection]

/-- C5 (amended): `addToSelection` on an already-selected element and
`deselect` on an absent one leave the selection set (and the scene)
unchanged, but each call still emits one `selection:changed` event carrying
the unchanged selection. -/
theorem selection_set_idempotent_but_emits (s : SMState) (i : ℕ) :
    (i ∈ s.selected →
      (addToSelection i s).selected = s.selected ∧
      (addToSelection i s).scene = s.scene ∧
      (addToSelection i s).events = s.events ++ [.selectionChanged s.selected]) ∧
    (i ∉ s.selected →
      (deselect i s).selected = s.selected ∧
      (deselect i s).scene = s.scene ∧
      (deselect i s).events = s.events ++ [.selectionChanged s.selected]) := by
  constructor
  · intro h
    refine ⟨by simp [addToSelection, h], by simp [addToSelection], by simp [addToSelection, h]⟩
  · intro h
    have he : s.selected.erase i = s.selected := List.erase_of_not_mem h
    exact ⟨by simp [deselect, he], by simp [deselect], by simp [deselect, he]⟩

/-- Witness for `selection_set_idempotent_but_emits` at a concrete state. -/
theorem selection_set_idempotent_but_emits_witness :
    (addToSelection 7 ⟨[7, 8], [], true, [], 0, []⟩).selected = [7, 8] ∧
    (deselect 9 ⟨[7, 8], [], true, [], 0, []⟩).selected = [7, 8] := by
  refine ⟨((selection_set_idempotent_but_emits ⟨[7, 8], [], true, [], 0, []⟩ 7).1
      (by norm_num)).1,
    ((selection_set_idempotent_but_emits ⟨[7, 8], [], true, [], 0, []⟩ 9).2
      (by norm_num)).1⟩

/-! ### Helper lemmas for the reactive-setter claims -/

/-- A property read always produces a value of the property's type. -/
theorem typeOk_getProp (el : Element) (p : PropName) :
    typeOk p (getProp el p) = true := by
  cases p <;> rfl

/-- Writing a well-typed value makes a subsequent read return it. -/
theorem getProp_assign_same (el : Element) (p : PropName) (v : Val)
    (h : typeOk p v = true) : getProp (assign el p v) p = v := by
  cases p <;> cases v <;> simp_all [typeOk, assign, getProp]

/-- Writing one property leaves every other property unchanged. -/
theorem getProp_assign_other (el : Element) (p q : PropName) (v : Val)
    (hpq : q ≠ p) : getProp (assign el p v) q = getProp el q := by
  cases p <;> cases q <;> cases v <;> first
    | rfl
    | exact absurd rfl hpq

/-- The setter's equality guard: `if (old === value) return;`. -/
theorem setProp_eq_self {p : PropName} {v : Val} {s : EState}
    (h : getProp s.el p = v) : setProp p v s = s := by
  simp [setProp, h]

/-- Past the guard, the element state is the raw field write. -/
theorem setProp_el {p : PropName} {v : Val} {s : EState}
    (h : getProp s.el p ≠ v) : (setProp p v s).el = assign s.el p v := by
  simp only [setProp]
  rw [if_neg h]
  by_cases hz : p = PropName.zIndex <;> by_cases hs : s.suppress <;> simp [hz, hs]

/-- The suppression flag is never changed by a setter. -/
theorem setProp_suppress (p : PropName) (v : Val) (s : EState) :
    (setProp p v s).suppress = s.suppress := by
  by_cases h : getProp s.el p = v
  · rw [setProp_eq_self h]
  · simp only [setProp]
    rw [if_neg h]
    by_cases hz : p = PropName.zIndex <;> by_cases hs : s.suppress <;> simp [hz, hs]

/-- Past the guard, the events appended by a setter: `element:changed`, then
`action:performed` unless suppressed, then `element:zChanged` for `zIndex`. -/
theorem setProp_events {p : PropName} {v : Val} {s : EState}
    (h : getProp s.el p ≠ v) :
    (setProp p v s).events =
      s.events ++ [.changed p (getProp s.el p) v] ++
        (if s.suppress then [] else [.actionPerformed p (getProp s.el p) v]) ++
        (if p = PropName.zIndex then [.zChanged (getProp s.el p) v] else []) := by
  simp only [setProp]
  rw [if_neg h]
  by_cases hz : p = PropName.zIndex <;> by_cases hs : s.suppress <;> simp [hz, hs]

/-- Any events appended by a setter invoked while the suppression flag is set
contain no `action:performed`. -/
theorem setProp_suppressed_no_action (p : PropName) (v : Val) (s : EState)
    (hs : s.suppress = true) :
    ∀ ev ∈ (setProp p v s).events.drop s.events.length,
      isActionEvent ev = false := by
  intro ev hev
  by_cases h : getProp s.el p = v
  · rw [setProp_eq_self h, List.drop_length] at hev
    exact absurd hev (List.not_mem_nil ev)
  · rw [setProp_events h, hs] at hev
    by_cases hz : p = PropName.zIndex
    · rw [if_pos hz] at hev
      simp only [List.append_assoc] at hev
      rw [List.drop_left] at hev
      simp at hev
      rcases hev with rfl | rfl <;> rfl
    · rw [if_neg hz] at hev
      simp only [List.append_assoc] at hev
      rw [List.drop_left] at hev
      simp at hev
      subst hev
      rfl

/-- Element state after an effective `undo` replay: the raw write of the old
value. -/
theorem runUndo_el_of_ne {p : PropName} {oldV : Val} {s : EState} (newV : Val)
    (h : getProp s.el p ≠ oldV) :
    (runUndo p oldV newV s).el = assign s.el p oldV :=
  setProp_el (s := { s with suppress := true }) h

/-- Element state after an `undo` replay that hits the equality guard. -/
theorem runUndo_el_of_eq {p : PropName} {oldV : Val} {s : EState} (newV : Val)
    (h : getProp s.el p = oldV) :
    (runUndo p oldV newV s).el = s.el := by
  show (setProp p oldV { s with suppress := true }).el = s.el
  rw [setProp_eq_self (s := { s with suppress := true }) h]

/-- Element state after an effective `redo` replay: the raw write of the new
value. -/
theorem runRedo_el_of_ne {p : PropName} {newV : Val} {s : EState} (oldV : Val)
    (h : getProp s.el p ≠ newV) :
    (runRedo p oldV newV s).el = assign s.el p newV :=
  setProp_el (s := { s with suppress := true }) h

/-- Element state after a `redo` replay that hits the equality guard. -/
theorem runRedo_el_of_eq {p : PropName} {newV : Val} {s : EState} (oldV : Val)
    (h : getProp s.el p = newV) :
    (runRedo p oldV newV s).el = s.el := by
  show (setProp p newV { s with suppress := true }).el = s.el
  rw [setProp_eq_self (s := { s with suppress := true }) h]

/-- C2: the guarded-setter contract of every mutable element property.
(a) setting a property to its current value is a complete no-op;
(b) setting a different (well-typed) value writes exactly that property,
preserves the suppression flag, and appends `element:changed`, then
`action:performed` unless the shared suppression flag is set (and
`element:zChanged` for `zIndex` only); (c) the recorded action's `undo`/
`redo` closures re-enter the setter with the suppression flag set, so a
replayed mutation never appends any `action:performed` event. -/
theorem guarded_setter_contract (s : EState) (p : PropName) (v : Val) :
    (getProp s.el p = v → setProp p v s = s) ∧
    (getProp s.el p ≠ v → typeOk p v = true →
      getProp (setProp p v s).el p = v ∧
      (∀ q, q ≠ p → getProp (setProp p v s).el q = getProp s.el q) ∧
      (setProp p v s).suppress = s.suppress ∧
      (setProp p v s).events =
        s.events ++ [.changed p (getProp s.el p) v] ++
          (if s.suppress then [] else [.actionPerformed p (getProp s.el p) v]) ++
          (if p = PropName.zIndex then [.zChanged (getProp s.el p) v] else [])) ∧
    (∀ oldV newV ev, ev ∈ (runUndo p oldV newV s).events.drop s.events.length →
      isActionEvent ev = false) ∧
    (∀ oldV newV ev, ev ∈ (runRedo p oldV newV s).events.drop s.events.length →
      isActionEvent ev = false) := by
  refine ⟨fun h => setProp_eq_self h, fun h hok => ?_, fun oldV newV ev hev => ?_,
    fun oldV newV ev hev => ?_⟩
  · exact ⟨by rw [setProp_el h]; exact getProp_assign_same s.el p v hok,
      fun q hq => by rw [setProp_el h]; exact getProp_assign_other s.el p q v hq,
      setProp_suppress p v s, setProp_events h⟩
  · exact setProp_suppressed_no_action p oldV { s with suppress := true } rfl ev hev
  · exact setProp_suppressed_no_action p newV { s with suppress := true } rfl ev hev

/-- Witness for `guarded_setter_contract`: a redundant write is a no-op and
an effective write lands, at `p = x`, `v = 5`, starting from the default
element. -/
theorem guarded_setter_contract_witness :
    setProp .x (.num 0) ⟨{}, false, []⟩ = ⟨{}, false, []⟩ ∧
    getProp (setProp .x (.num 5) ⟨{}, false, []⟩).el .x = .num 5 ∧
    (setProp .x (.num 5) ⟨{}, false, []⟩).events =
      [.changed .x (.num 0) (.num 5), .actionPerformed .x (.num 0) (.num 5)] := by
  have h0 : getProp (⟨{}, false, []⟩ : EState).el .x = Val.num 0 := rfl
  have h5 : getProp (⟨{}, false, []⟩ : EState).el .x ≠ Val.num 5 := by
    rw [h0]
    intro h
    exact absurd (Val.num.inj h) (by norm_num)
  refine ⟨(guarded_setter_contract ⟨{}, false, []⟩ .x (.num 0)).1 h0,
    ((guarded_setter_contract ⟨{}, false, []⟩ .x (.num 5)).2.1 h5 rfl).1, ?_⟩
  have := ((guarded_setter_contract ⟨{}, false, []⟩ .x (.num 5)).2.1 h5 rfl).2.2.2
  rw [h0] at this
  simpa using this

/-- C1: for a recorded single-property mutation (an `action:performed` is
emitted exactly when the suppression flag is clear), replaying `undo` then
`redo` leaves the property at the exact post-mutation value, and replaying
`redo` then `undo` leaves it at the exact pre-mutation value. -/
theorem undo_redo_exact_roundtrip (s : EState) (p : PropName) (v : Val)
    (hsup : s.suppress = false) (hne : getProp s.el p ≠ v)
    (hok : typeOk p v = true) :
    BEvent.actionPerformed p (getProp s.el p) v ∈ (setProp p v s).events ∧
    getProp (runRedo p (getProp s.el p) v
      (runUndo p (getProp s.el p) v (setProp p v s))).el p
        = getProp (setProp p v s).el p ∧
    getProp (runUndo p (getProp s.el p) v
      (runRedo p (getProp s.el p) v (setProp p v s))).el p
        = getProp s.el p := by
  set old := getProp s.el p with hold
  set s1 := setProp p v s with hs1
  have hokOld : typeOk p old = true := hold ▸ typeOk_getProp s.el p
  have hel1 : getProp s1.el p = v := by
    rw [hs1, setProp_el hne]
    exact getProp_assign_same s.el p v hok
  have hvne : getProp s1.el p ≠ old := by
    rw [hel1]
    exact fun h => hne h.symm
  refine ⟨?_, ?_, ?_⟩
  · rw [hs1, setProp_events hne, hsup]
    by_cases hz : p = PropName.zIndex <;> simp [hz, hold]
  · -- undo, then redo
    have h2 : getProp (runUndo p old v s1).el p = old := by
      rw [runUndo_el_of_ne v hvne]
      exact getProp_assign_same _ p old hokOld
    have h2' : getProp (runUndo p old v s1).el p ≠ v := by
      rw [h2]
      exact hne
    have h3 : getProp (runRedo p old v (runUndo p old v s1)).el p = v := by
      rw [runRedo_el_of_ne old h2']
      exact getProp_assign_same _ p v hok
    rw [h3, hel1]
  · -- redo, then undo: the redo replay hits the equality guard
    have h3 : getProp (runRedo p old v s1).el p = v := by
      rw [runRedo_el_of_eq old hel1]
      exact hel1
    have h4 : getProp (runRedo p old v s1).el p ≠ old := by
      rw [h3]
      exact fun hh => hne hh.symm
    rw [runUndo_el_of_ne v h4]
    exact getProp_assign_same _ p old hokOld

/-- Witness for `undo_redo_exact_roundtrip` at `p = x`, `v = 5` from the
default element. -/
theorem undo_redo_exact_roundtrip_witness :
    getProp (runRedo .x (.num 0) (.num 5)
      (runUndo .x (.num 0) (.num 5) (setProp .x (.num 5) ⟨{}, false, []⟩))).el .x
        = getProp (setProp .x (.num 5) ⟨{}, false, []⟩).el .x ∧
    getProp (runUndo .x (.num 0) (.num 5)
      (runRedo .x (.num 0) (.num 5) (setProp .x (.num 5) ⟨{}, false, []⟩))).el .x
        = .num 0 := by
  have h5 : getProp (⟨{}, false, []⟩ : EState).el .x ≠ Val.num 5 := by
    intro h
    exact absurd (Val.num.inj (show Val.num 0 = Val.num 5 from h)) (by norm_num)
  have := undo_redo_exact_roundtrip ⟨{}, false, []⟩ .x (.num 5) rfl h5 rfl
  exact ⟨this.2.1, this.2.2⟩

/-! ### Resize decomposition and clamp -/

/-- With `constrain = false` the aspect branch is skipped. -/
theorem resizeRaw_unconstrained (handle : HandlePos) (dx dy : ℚ) (start : Snap) :
    resizeRaw handle false dx dy start =
      ⟨if hasLeft handle then start.x + dx else start.x,
       if hasTop handle then start.y + dy else start.y,
       if hasLeft handle then start.width - dx
         else if hasRight handle then start.width + dx else start.width,
       if hasTop handle then start.height - dy
         else if hasBottom handle then start.height + dy else start.height⟩ := by
  simp [resizeRaw]

/-- The clamp is the identity when both extents already meet the floor. -/
theorem clampMin5_of_ge (handle : HandlePos) (start : Snap) (r : RectW)
    (hw : 5 ≤ r.width) (hh : 5 ≤ r.height) : clampMin5 handle start r = r := by
  simp only [clampMin5]
  rw [if_neg (not_lt.2 hw), if_neg (not_lt.2 hh)]

/-- C6: unconstrained resize decomposes the pointer delta per handle side:
a right handle adds `dx` to the width, a left handle subtracts it; a bottom
handle adds `dy` to the height, a top handle subtracts it; a left (top)
handle keeps the right (bottom) edge fixed while a non-left (non-top) handle
keeps the position fixed — all provided the 5-unit floor does not trigger.
Concretely, an object snapshotted at (10,10,100,50) resized via
`bottom-right` by (+20,+10) becomes {x:10,y:10,width:120,height:60} and via
`top-left` by (+20,+10) becomes {x:30,y:20,width:80,height:40}. -/
theorem resize_delta_decomposition :
    (∀ (handle : HandlePos) (dx dy : ℚ) (start : Snap),
      5 ≤ (resizeRaw handle false dx dy start).width →
      5 ≤ (resizeRaw handle false dx dy start).height →
      (resizeElement handle false dx dy start).width =
          start.width +
            (if hasRight handle then dx else if hasLeft handle then -dx else 0) ∧
      (resizeElement handle false dx dy start).height =
          start.height +
            (if hasBottom handle then dy else if hasTop handle then -dy else 0) ∧
      (hasLeft handle = true →
        (resizeElement handle false dx dy start).x +
          (resizeElement handle false dx dy start).width = start.x + start.width) ∧
      (hasLeft handle = false →
        (resizeElement handle false dx dy start).x = start.x) ∧
      (hasTop handle = true →
        (resizeElement handle false dx dy start).y +
          (resizeElement handle false dx dy start).height = start.y + start.height) ∧
      (hasTop handle = false →
        (resizeElement handle false dx dy start).y = start.y)) ∧
    resizeElement .bottomRight false 20 10 ⟨10, 10, 100, 50, 0⟩ = ⟨10, 10, 120, 60⟩ ∧
    resizeElement .topLeft false 20 10 ⟨10, 10, 100, 50, 0⟩ = ⟨30, 20, 80, 40⟩ := by
  refine ⟨fun handle dx dy start hw hh => ?_, ?_, ?_⟩
  · rw [resizeElement, clampMin5_of_ge handle start _ hw hh]
    rw [resizeRaw_unconstrained] at hw hh ⊢
    cases handle <;> refine ⟨?_, ?_, ?_, ?_, ?_, ?_⟩ <;>
      ((try simp [hasLeft, hasRight, hasTop, hasBottom]); (try ring))
  · norm_num [resizeElement, resizeRaw, clampMin5, hasLeft, hasRight, hasTop,
      hasBottom]
  · norm_num [resizeElement, resizeRaw, clampMin5, hasLeft, hasRight, hasTop,
      hasBottom]

/-- Witness for `resize_delta_decomposition`: the general part applied at the
`middle-right` handle with delta (+7,+3) from snapshot (0,0,40,30). -/
theorem resize_delta_decomposition_witness :
    (resizeElement .middleRight false 7 3 ⟨0, 0, 40, 30, 0⟩).width = 40 + 7 ∧
    (resizeElement .middleRight false 7 3 ⟨0, 0, 40, 30, 0⟩).x = 0 := by
  have h := resize_delta_decomposition.1 .middleRight 7 3 ⟨0, 0, 40, 30, 0⟩
    (by norm_num [resizeRaw, hasLeft, hasRight, hasTop, hasBottom])
    (by norm_num [resizeRaw, hasLeft, hasRight, hasTop, hasBottom])
  refine ⟨?_, h.2.2.2.1 rfl⟩
  have hw := h.1
  simpa [hasRight, hasLeft] using hw

/-- C7: after any resize step (any handle, constrained or not, any delta),
the resulting width and height are at least 5; and whenever the width floor
triggers on a left handle the right edge stays anchored at its snapshot
position (`x + width = start.x + start.width`), and whenever the height
floor triggers on a top handle the bottom edge stays anchored
(`y + height = start.y + start.height`). -/
theorem resize_min_extent_clamp (handle : HandlePos) (constrain : Bool)
    (dx dy : ℚ) (start : Snap) :
    5 ≤ (resizeElement handle constrain dx dy start).width ∧
    5 ≤ (resizeElement handle constrain dx dy start).height ∧
    ((resizeRaw handle constrain dx dy start).width < 5 →
      hasLeft handle = true →
      (resizeElement handle constrain dx dy start).x +
        (resizeElement handle constrain dx dy start).width =
          start.x + start.width) ∧
    ((resizeRaw handle constrain dx dy start).height < 5 →
      hasTop handle = true →
      (resizeElement handle constrain dx dy start).y +
        (resizeElement handle constrain dx dy start).height =
          start.y + start.height) := by
  set r := resizeRaw handle constrain dx dy start with hr
  simp only [resizeElement, clampMin5, ← hr]
  by_cases hw : r.width < 5
  · rw [if_pos hw]
    by_cases hh : r.height < 5
    · rw [if_pos hh]
      refine ⟨by norm_num, by norm_num, fun _ hL => ?_, fun _ hT => ?_⟩
      · simp [hL]
      · simp [hT]
    · rw [if_neg hh]
      refine ⟨by norm_num, le_of_not_lt hh, fun _ hL => ?_, fun h5 _ => ?_⟩
      · simp [hL]
      · exact absurd h5 hh
  · rw [if_neg hw]
    by_cases hh : r.height < 5
    · rw [if_pos hh]
      refine ⟨le_of_not_lt hw, by norm_num, fun h5 _ => absurd h5 hw,
        fun _ hT => by simp [hT]⟩
    · rw [if_neg hh]
      exact ⟨le_of_not_lt hw, le_of_not_lt hh,
        fun h5 _ => absurd h5 hw, fun h5 _ => absurd h5 hh⟩

/-- Witness for `resize_min_extent_clamp`: a `top-left` drag far past the
minimum leaves a 5×5 object anchored at the snapshot's right and bottom
edges. -/
theorem resize_min_extent_clamp_witness :
    5 ≤ (resizeElement .topLeft false 200 300 ⟨10, 10, 100, 50, 0⟩).width ∧
    (resizeElement .topLeft false 200 300 ⟨10, 10, 100, 50, 0⟩).x +
      (resizeElement .topLeft false 200 300 ⟨10, 10, 100, 50, 0⟩).width = 110 ∧
    (resizeElement .topLeft false 200 300 ⟨10, 10, 100, 50, 0⟩).y +
      (resizeElement .topLeft false 200 300 ⟨10, 10, 100, 50, 0⟩).height = 60 := by
  have h := resize_min_extent_clamp .topLeft false 200 300 ⟨10, 10, 100, 50, 0⟩
  refine ⟨h.1, ?_, ?_⟩
  · have h1 := h.2.2.1 (by norm_num [resizeRaw, hasLeft, hasRight, hasTop, hasBottom]) rfl
    norm_num at h1
    exact h1
  · have h1 := h.2.2.2 (by norm_num [resizeRaw, hasLeft, hasRight, hasTop, hasBottom]) rfl
    norm_num at h1
    exact h1

/-! ### Gesture cancellation -/

/-- `cancel`'s revert loop leaves ids outside the active list untouched. -/
theorem cancelFold_not_mem (ds : DragState) (ids : List ℕ) (els : ℕ → Snap)
    (j : ℕ) (hj : j ∉ ids) : cancelFold ds ids els j = els j := by
  induction ids generalizing els with
  | nil => rfl
  | cons i rest ih =>
      have hji : j ≠ i := fun h => hj (h ▸ List.mem_cons_self i rest)
      have hjr : j ∉ rest := fun h => hj (List.mem_cons_of_mem i h)
      cases hlk : ds.startProps.lookup i with
      | none => simp only [cancelFold, hlk]; exact ih els hjr
      | some st =>
          simp only [cancelFold, hlk]
          rw [ih _ hjr]
          simp [hji]

/-- `cancel`'s revert loop writes the snapshot x/y of every active element
that has a snapshot. -/
theorem cancelFold_restores (ds : DragState) (ids : List ℕ) (els : ℕ → Snap) :
    ∀ i ∈ ids, ∀ st, ds.startProps.lookup i = some st →
      (cancelFold ds ids els i).x = st.x ∧ (cancelFold ds ids els i).y = st.y := by
  induction ids generalizing els with
  | nil => intro i hi; exact absurd hi (List.not_mem_nil i)
  | cons j rest ih =>
      intro i hi st hst
      by_cases hir : i ∈ rest
      · cases hlk : ds.startProps.lookup j with
        | none => simp only [cancelFold, hlk]; exact ih _ i hir st hst
        | some st2 => simp only [cancelFold, hlk]; exact ih _ i hir st hst
      · have hij : i = j := by
          rcases List.mem_cons.1 hi with h | h
          · exact h
          · exact absurd h hir
        subst hij
        simp only [cancelFold, hst]
        rw [cancelFold_not_mem ds rest _ i hir]
        simp

/-- C3 (amended): for any active gesture, `cancel()` restores every affected
object's `x` and `y` to the start-of-gesture snapshot, clears the gesture
state, and emits no event (in particular no commit event). Only position is
reverted — width, height and rotation are not (see the counterexample). -/
theorem cancel_restores_position (s : TCState) (ds : DragState)
    (hds : s.dragState = some ds) :
    (∀ i ∈ s.activeElements, ∀ st, ds.startProps.lookup i = some st →
      ((cancel s).elements i).x = st.x ∧ ((cancel s).elements i).y = st.y) ∧
    (cancel s).dragState = none ∧
    (cancel s).activeElements = [] ∧
    (cancel s).events = s.events := by
  refine ⟨fun i hi st hst => ?_, ?_, ?_, ?_⟩ <;>
    simp only [cancel, hds]
  · exact cancelFold_restores ds s.activeElements s.elements i hi st hst

/-- Witness for `cancel_restores_position`: a move gesture over one element
dragged by (+30,+40) and cancelled returns the element to (10,10). -/
theorem cancel_restores_position_witness :
    ((cancel (onPointerMove (fun _ _ => 0) ⟨30, 40, false⟩
      (startMove [0] ⟨0, 0, false⟩
        ⟨fun _ => ⟨10, 10, 100, 50, 0⟩, none, [], []⟩))).elements 0).x = 10 ∧
    ((cancel (onPointerMove (fun _ _ => 0) ⟨30, 40, false⟩
      (startMove [0] ⟨0, 0, false⟩
        ⟨fun _ => ⟨10, 10, 100, 50, 0⟩, none, [], []⟩))).elements 0).y = 10 := by
  have h := cancel_restores_position
    (onPointerMove (fun _ _ => 0) ⟨30, 40, false⟩
      (startMove [0] ⟨0, 0, false⟩ ⟨fun _ => ⟨10, 10, 100, 50, 0⟩, none, [], []⟩))
    ⟨.move, 0, 0, none, [(0, ⟨10, 10, 100, 50, 0⟩)]⟩ (by
      norm_num [onPointerMove, startMove, handleMove, snapshotOf])
  have h0 := h.1 0 (by norm_num [onPointerMove, startMove, handleMove, snapshotOf])
    ⟨10, 10, 100, 50, 0⟩ (by norm_num [List.lookup])
  exact h0

/-- C3 counterexample: a resize gesture (handle `bottom-right`, delta
(+20,+10)) grows the object from width 100 to width 120; `cancel()` leaves
the width at 120 instead of restoring the snapshot value 100, because the
revert loop only writes `x` and `y`. -/
theorem cancel_does_not_restore_width :
    ((cancel (onPointerMove (fun _ _ => 0) ⟨20, 10, false⟩
      (startResize [0] .bottomRight ⟨0, 0, false⟩
        ⟨fun _ => ⟨10, 10, 100, 50, 0⟩, none, [], []⟩))).elements 0).width = 120 ∧
    ((cancel (onPointerMove (fun _ _ => 0) ⟨20, 10, false⟩
      (startResize [0] .bottomRight ⟨0, 0, false⟩
        ⟨fun _ => ⟨10, 10, 100, 50, 0⟩, none, [], []⟩))).elements 0).width ≠ 100 := by
  constructor
  · norm_num [onPointerMove, startResize, handleResize, snapshotOf, resizeFold,
      cancel, cancelFold, List.lookup, resizeElement, resizeRaw, clampMin5,
      hasLeft, hasRight, hasTop, hasBottom]
  · norm_num [onPointerMove, startResize, handleResize, snapshotOf, resizeFold,
      cancel, cancelFold, List.lookup, resizeElement, resizeRaw, clampMin5,
      hasLeft, hasRight, hasTop, hasBottom]

/-! ### Paste -/

/-- One run of the paste loop: the scene grows by exactly the successfully
deserialized entries (offset, fresh ids), the selection accumulates their
ids, and the clipboard and serializer configuration are untouched — provided
every id already in the scene or selection is below the uid counter (which
`generateUid` guarantees). -/
theorem pasteLoop_spec (entries : List SerEl) :
    ∀ s : SMState,
      (∀ i ∈ s.scene.map SerEl.id, i < s.nextUid) →
      (∀ i ∈ s.selected, i < s.nextUid) →
      (pasteLoop entries s).scene = s.scene ++ pastedFrom entries s.nextUid ∧
      (pasteLoop entries s).selected =
        s.selected ++ (pastedFrom entries s.nextUid).map SerEl.id ∧
      (pasteLoop entries s).clipboard = s.clipboard ∧
      (pasteLoop entries s).hasSerializer = s.hasSerializer := by
  induction entries with
  | nil => intro s _ _; simp [pasteLoop, pastedFrom]
  | cons d rest ih =>
      intro s hscene hsel
      by_cases hreg : registryHas d.typ
      · have hdeser :
            deserializeElement ⟨d.typ, s.nextUid, d.x + 20, d.y + 20⟩ =
              some ⟨d.typ, s.nextUid, d.x + 20, d.y + 20⟩ := by
          simp [deserializeElement, hreg]
        have hnotin : s.nextUid ∉ s.scene.map SerEl.id := fun h =>
          absurd (hscene _ h) (lt_irrefl _)
        have hnotsel : s.nextUid ∉ s.selected := fun h =>
          absurd (hsel _ h) (lt_irrefl _)
        have hstep :
            pasteLoop (d :: rest) s =
              pasteLoop rest
                ⟨s.selected ++ [s.nextUid], s.clipboard, s.hasSerializer,
                 s.scene ++ [⟨d.typ, s.nextUid, d.x + 20, d.y + 20⟩],
                 s.nextUid + 1,
                 s.events ++ [.elementAdded s.nextUid,
                   .selectionChanged (s.selected ++ [s.nextUid])]⟩ := by
          simp only [pasteLoop, hdeser, emAdd, addToSelection]
          rw [if_neg hnotin]
          simp [hnotsel]
        rw [hstep]
        have h2 := ih ⟨s.selected ++ [s.nextUid], s.clipboard, s.hasSerializer,
          s.scene ++ [⟨d.typ, s.nextUid, d.x + 20, d.y + 20⟩], s.nextUid + 1,
          s.events ++ [.elementAdded s.nextUid,
            .selectionChanged (s.selected ++ [s.nextUid])]⟩
          (by
            intro i hi
            simp only [List.map_append, List.mem_append] at hi
            rcases hi with hi | hi
            · exact lt_trans (hscene i hi) (Nat.lt_succ_self _)
            · simp at hi
              simp [hi])
          (by
            intro i hi
            rcases List.mem_append.1 hi with hi | hi
            · exact lt_trans (hsel i hi) (Nat.lt_succ_self _)
            · simp at hi
              simp [hi])
        refine ⟨?_, ?_, h2.2.2.1, h2.2.2.2⟩
        · rw [h2.1]
          simp [pastedFrom, hreg]
        · rw [h2.2.1]
          simp [pastedFrom, hreg]
      · have hdeser :
            deserializeElement ⟨d.typ, s.nextUid, d.x + 20, d.y + 20⟩ = none := by
          simp [deserializeElement, hreg]
        have hstep :
            pasteLoop (d :: rest) s =
              pasteLoop rest { s with nextUid := s.nextUid + 1 } := by
          simp only [pasteLoop, hdeser]
        rw [hstep]
        have h2 := ih { s with nextUid := s.nextUid + 1 }
          (fun i hi => lt_trans (hscene i hi) (Nat.lt_succ_self _))
          (fun i hi => lt_trans (hsel i hi) (Nat.lt_succ_self _))
        refine ⟨?_, ?_, h2.2.2.1, h2.2.2.2⟩
        · rw [h2.1]
          simp [pastedFrom, hreg]
        · rw [h2.2.1]
          simp [pastedFrom, hreg]

/-- C9: with a non-empty clipboard and a configured serializer (and the
`generateUid` freshness guarantee that scene ids are below the uid counter),
`pasteClipboard` appends to the scene exactly the deserializable clipboard
entries, each with a regenerated id and a (+20,+20) offset; an entry whose
type is not registered is skipped alone while the rest still paste; and the
final selection is exactly the pasted ids, replacing the prior selection.
The clipboard itself is unchanged. -/
theorem pasteClipboard_spec (s : SMState) (hc : s.clipboard ≠ [])
    (hs : s.hasSerializer = true)
    (hscene : ∀ i ∈ s.scene.map SerEl.id, i < s.nextUid) :
    (pasteClipboard s).scene = s.scene ++ pastedFrom s.clipboard s.nextUid ∧
    (pasteClipboard s).selected = (pastedFrom s.clipboard s.nextUid).map SerEl.id ∧
    (pasteClipboard s).clipboard = s.clipboard := by
  have hcond : ¬(s.clipboard = [] ∨ s.hasSerializer = false) := by
    rintro (h | h)
    · exact hc h
    · rw [hs] at h
      exact absurd h (by norm_num)
  have hcs : (clearSelection s).scene = s.scene ∧
      (clearSelection s).selected = [] ∧
      (clearSelection s).clipboard = s.clipboard ∧
      (clearSelection s).nextUid = s.nextUid := by
    by_cases h : s.selected = [] <;> simp [clearSelection, h]
  have h2 := pasteLoop_spec s.clipboard (clearSelection s)
    (by rw [hcs.1, hcs.2.2.2]; exact hscene)
    (by rw [hcs.2.1]; intro i hi; exact absurd hi (List.not_mem_nil i))
  rw [pasteClipboard, if_neg hcond]
  refine ⟨?_, ?_, ?_⟩
  · rw [h2.1, hcs.1, hcs.2.2.2]
  · rw [h2.2.1, hcs.2.1, hcs.2.2.2]
    simp
  · rw [h2.2.2.1, hcs.2.2.1]

/-- Witness for `pasteClipboard_spec`: pasting a clipboard holding a `text`
entry at (1,2) and an unregistered-type entry yields a scene with exactly one
new element — id 100, position (21,22) — which is also the entire new
selection, replacing the previously selected id 55. -/
theorem pasteClipboard_spec_witness :
    (pasteClipboard ⟨[55], [⟨.text, 9, 1, 2⟩, ⟨.other 0, 9, 3, 4⟩], true, [],
        100, []⟩).scene = [⟨.text, 100, 21, 22⟩] ∧
    (pasteClipboard ⟨[55], [⟨.text, 9, 1, 2⟩, ⟨.other 0, 9, 3, 4⟩], true, [],
        100, []⟩).selected = [100] := by
  have h := pasteClipboard_spec
    ⟨[55], [⟨.text, 9, 1, 2⟩, ⟨.other 0, 9, 3, 4⟩], true, [], 100, []⟩
    (by intro h; exact absurd (congrArg List.length h) (by norm_num)) rfl
    (by intro i hi; exact absurd hi (List.not_mem_nil i))
  refine ⟨?_, ?_⟩
  · rw [h.1]
    norm_num [pastedFrom, registryHas]
  · rw [h.2.1]
    norm_num [pastedFrom, registryHas]

/-! ### Z-order: sorting infrastructure -/

/-- `getSortedByZ` permutes the scene list. -/
theorem sortZ_perm (l : List ZEntry) : (sortZ l).Perm l :=
  List.perm_insertionSort zle l

/-- `getSortedByZ` is sorted ascending by key. -/
theorem sortZ_sorted (l : List ZEntry) : List.Sorted zle (sortZ l) :=
  List.sorted_insertionSort zle l

theorem sortZ_length (l : List ZEntry) : (sortZ l).length = l.length :=
  (sortZ_perm l).length_eq

/-- Sortedness only depends on the key sequence. -/
theorem sorted_zle_keys {L : List ZEntry} :
    List.Sorted zle L ↔ List.Pairwise (· ≤ ·) (L.map Prod.snd) := by
  rw [List.pairwise_map]
  exact Iff.rfl

/-- With pairwise-distinct keys, a `zle`-sorted list is strictly sorted. -/
theorem sorted_zlt_of_sorted_zle {L : List ZEntry} (hs : List.Sorted zle L)
    (hnd : (L.map Prod.snd).Nodup) : List.Sorted zlt L := by
  have hne : List.Pairwise (fun a b : ZEntry => a.2 ≠ b.2) L :=
    List.pairwise_map.1 hnd
  exact (List.Pairwise.and hs hne).imp fun hab => lt_of_le_of_ne hab.1 hab.2

/-- With distinct keys the sorted order is unique: any sorted permutation of
the scene is `getSortedByZ`'s result. -/
theorem sortZ_eq_of_perm_sorted {l L : List ZEntry} (hperm : l.Perm L)
    (hs : List.Sorted zle L) (hnd : (l.map Prod.snd).Nodup) : sortZ l = L := by
  have hndS : ((sortZ l).map Prod.snd).Nodup :=
    ((sortZ_perm l).map Prod.snd).nodup_iff.mpr hnd
  have hndL : (L.map Prod.snd).Nodup := ((hperm.map Prod.snd).nodup_iff).mp hnd
  exact List.eq_of_perm_of_sorted ((sortZ_perm l).trans hperm)
    (sorted_zlt_of_sorted_zle (sortZ_sorted l) hndS)
    (sorted_zlt_of_sorted_zle hs hndL)

/-- Indexing past an append block. -/
theorem nthZ_append (T U : List ZEntry) (n : ℕ) :
    nthZ (T ++ U) (T.length + n) = nthZ U n := by
  induction T with
  | nil => simp [nthZ]
  | cons t T ih =>
      show nthZ (t :: (T ++ U)) (T.length + 1 + n) = nthZ U n
      have h : T.length + 1 + n = (T.length + n) + 1 := by ring
      rw [h]
      exact ih

/-- Out-of-range indexing yields `none` (JS `indexOf` returning `-1` and the
bounds guards). -/
theorem nthZ_none {S : List ZEntry} {n : ℕ} (h : S.length ≤ n) :
    nthZ S n = none := by
  induction S generalizing n with
  | nil => cases n <;> rfl
  | cons p rest ih =>
      cases n with
      | zero => exact absurd h (by simp)
      | succ m => exact ih (Nat.le_of_succ_le_succ h)

/-- `indexOf` skips a prefix free of the searched id. -/
theorem idxOfZ_append_not {T : List ZEntry} (U : List ZEntry) (eid : ℕ)
    (h : ∀ p ∈ T, p.1 ≠ eid) :
    idxOfZ eid (T ++ U) = T.length + idxOfZ eid U := by
  induction T with
  | nil => simp [idxOfZ]
  | cons t T ih =>
      have ht : t.1 ≠ eid := h t (List.mem_cons_self t T)
      show (if t.1 = eid then 0 else idxOfZ eid (T ++ U) + 1) = _
      rw [if_neg ht, ih fun p hp => h p (List.mem_cons_of_mem t hp)]
      simp only [List.length_cons]
      omega

/-- The entry with the searched id and everything before it, extracted from an
in-range `indexOf` result. -/
theorem idxOfZ_decomp (eid : ℕ) :
    ∀ S : List ZEntry, idxOfZ eid S < S.length →
      ∃ T a U, S = T ++ a :: U ∧ T.length = idxOfZ eid S ∧ a.1 = eid ∧
        ∀ p ∈ T, p.1 ≠ eid := by
  intro S
  induction S with
  | nil => intro h; exact absurd h (by simp [idxOfZ])
  | cons p rest ih =>
      intro h
      by_cases hp : p.1 = eid
      · exact ⟨[], p, rest, by simp, by simp [idxOfZ, hp], hp, by simp⟩
      · have h' : idxOfZ eid rest < rest.length := by
          have hh : idxOfZ eid (p :: rest) = idxOfZ eid rest + 1 := by
            simp [idxOfZ, hp]
          rw [hh] at h
          simpa using Nat.lt_of_succ_lt_succ (by simpa using h)
        obtain ⟨T, a, U, hS, hlen, ha, hT⟩ := ih h'
        refine ⟨p :: T, a, U, by rw [List.cons_append, ← hS],
          by simp [idxOfZ, hp, hlen], ha, ?_⟩
        intro q hq
        rcases List.mem_cons.1 hq with rfl | hq
        · exact hp
        · exact hT q hq

/-- `indexOf` at an explicit decomposition with a fresh prefix. -/
theorem idxOfZ_of_decomp {T : List ZEntry} (U : List ZEntry) {a : ZEntry}
    {eid : ℕ} (ha : a.1 = eid) (hT : ∀ p ∈ T, p.1 ≠ eid) :
    idxOfZ eid (T ++ a :: U) = T.length := by
  rw [idxOfZ_append_not (a :: U) eid hT]
  simp [idxOfZ, ha]

/-- `setZ` never changes ids. -/
theorem setZ_map_fst (l : List ZEntry) (i : ℕ) (z : ℚ) :
    (setZ l i z).map Prod.fst = l.map Prod.fst := by
  simp only [setZ, List.map_map]
  apply List.map_congr_left
  intro p _
  by_cases h : p.1 = i <;> simp [h]

/-- Writes through the `zIndex` setters of two distinct elements commute. -/
theorem setZ_comm {i j : ℕ} (l : List ZEntry) (z w : ℚ) (hij : i ≠ j) :
    setZ (setZ l i z) j w = setZ (setZ l j w) i z := by
  simp only [setZ, List.map_map]
  apply List.map_congr_left
  intro p _
  simp only [Function.comp]
  by_cases h1 : p.1 = i
  · by_cases h2 : p.1 = j
    · exact absurd (h1.symm.trans h2) hij
    · simp [h1, h2, hij, Ne.symm hij]
  · by_cases h2 : p.1 = j <;> simp [h1, h2, hij, Ne.symm hij]

/-- Re-writing both swapped keys back restores the original scene: the
pointwise inverse of a forward swap followed by its backward swap. -/
theorem setZ_restore (l : List ZEntry) (a b : ZEntry)
    (hid : (l.map Prod.fst).Nodup) (ha : a ∈ l) (hb : b ∈ l)
    (hab : a.1 ≠ b.1) :
    setZ (setZ (setZ (setZ l b.1 a.2) a.1 b.2) b.1 b.2) a.1 a.2 = l := by
  simp only [setZ, List.map_map]
  have hpt : ∀ p ∈ l,
      ((fun p : ZEntry => if p.1 = a.1 then (p.1, a.2) else p) ∘
        (fun p : ZEntry => if p.1 = b.1 then (p.1, b.2) else p) ∘
        (fun p : ZEntry => if p.1 = a.1 then (p.1, b.2) else p) ∘
        (fun p : ZEntry => if p.1 = b.1 then (p.1, a.2) else p)) p = id p := by
    intro p hp
    simp only [Function.comp, id]
    by_cases hpa : p.1 = a.1
    · have hpeq : p = a := List.inj_on_of_nodup_map hid hp ha hpa
      subst hpeq
      simp [hab]
    · by_cases hpb : p.1 = b.1
      · have hpeq : p = b := List.inj_on_of_nodup_map hid hp hb hpb
        subst hpeq
        simp [hab, Ne.symm hab]
      · simp [hpa, hpb]
  rw [List.map_congr_left hpt, List.map_id]

/-- The id pattern of an adjacent pair in the (id-nodup) sorted order. -/
theorem decomp_ids {l T U : List ZEntry} {a b : ZEntry}
    (hid : (l.map Prod.fst).Nodup) (hS : sortZ l = T ++ a :: b :: U) :
    a.1 ≠ b.1 ∧ (∀ p ∈ T, p.1 ≠ a.1 ∧ p.1 ≠ b.1) ∧
      (∀ p ∈ U, p.1 ≠ a.1 ∧ p.1 ≠ b.1) := by
  have hidS : ((T ++ a :: b :: U).map Prod.fst).Nodup := by
    rw [← hS]
    exact ((sortZ_perm l).map Prod.fst).nodup_iff.mpr hid
  rw [List.map_append, List.map_cons, List.map_cons] at hidS
  obtain ⟨ndT, ndR, disj⟩ := List.nodup_append.1 hidS
  obtain ⟨hna, ndR2⟩ := List.nodup_cons.1 ndR
  obtain ⟨hnb, _⟩ := List.nodup_cons.1 ndR2
  refine ⟨fun h => hna (h ▸ List.mem_cons_self _ _), fun p hp => ⟨?_, ?_⟩,
    fun p hp => ⟨?_, ?_⟩⟩
  · intro h
    exact disj (List.mem_map_of_mem Prod.fst hp)
      (h ▸ List.mem_cons_self _ _)
  · intro h
    exact disj (List.mem_map_of_mem Prod.fst hp)
      (h ▸ List.mem_cons_of_mem _ (List.mem_cons_self _ _))
  · intro h
    exact hna (List.mem_cons_of_mem _ (h ▸ List.mem_map_of_mem Prod.fst hp))
  · intro h
    exact hnb (h ▸ List.mem_map_of_mem Prod.fst hp)

/-- Core of the z-order transposition: swapping the keys of two adjacent
entries of the sorted order (all ids and keys distinct) sorts to the same
sequence with exactly those two entries transposed. -/
theorem sortZ_swap (l T U : List ZEntry) (a b : ZEntry)
    (hid : (l.map Prod.fst).Nodup) (hnd : (l.map Prod.snd).Nodup)
    (hS : sortZ l = T ++ a :: b :: U) :
    sortZ (setZ (setZ l b.1 a.2) a.1 b.2) =
      T ++ (b.1, a.2) :: (a.1, b.2) :: U := by
  obtain ⟨hab, hT, hU⟩ := decomp_ids hid hS
  have hmap : setZ (setZ l b.1 a.2) a.1 b.2 =
      List.map ((fun p : ZEntry => if p.1 = a.1 then (p.1, b.2) else p) ∘
        (fun p : ZEntry => if p.1 = b.1 then (p.1, a.2) else p)) l := by
    simp [setZ, List.map_map]
  have hmapS :
      List.map ((fun p : ZEntry => if p.1 = a.1 then (p.1, b.2) else p) ∘
        (fun p : ZEntry => if p.1 = b.1 then (p.1, a.2) else p)) (sortZ l) =
        T ++ (a.1, b.2) :: (b.1, a.2) :: U := by
    rw [hS, List.map_append, List.map_cons, List.map_cons]
    have hTid : List.map ((fun p : ZEntry => if p.1 = a.1 then (p.1, b.2) else p) ∘
        (fun p : ZEntry => if p.1 = b.1 then (p.1, a.2) else p)) T = T := by
      rw [show T = List.map id T from (List.map_id T).symm]
      simp only [List.map_map]
      apply List.map_congr_left
      intro p hp
      have h1 := (hT p (by simpa using hp)).1
      have h2 := (hT p (by simpa using hp)).2
      simp [Function.comp, h1, h2]
    have hUid : List.map ((fun p : ZEntry => if p.1 = a.1 then (p.1, b.2) else p) ∘
        (fun p : ZEntry => if p.1 = b.1 then (p.1, a.2) else p)) U = U := by
      rw [show U = List.map id U from (List.map_id U).symm]
      simp only [List.map_map]
      apply List.map_congr_left
      intro p hp
      have h1 := (hU p (by simpa using hp)).1
      have h2 := (hU p (by simpa using hp)).2
      simp [Function.comp, h1, h2]
    rw [hTid, hUid]
    have hfa : ((fun p : ZEntry => if p.1 = a.1 then (p.1, b.2) else p) ∘
        (fun p : ZEntry => if p.1 = b.1 then (p.1, a.2) else p)) a = (a.1, b.2) := by
      simp [Function.comp, hab]
    have hfb : ((fun p : ZEntry => if p.1 = a.1 then (p.1, b.2) else p) ∘
        (fun p : ZEntry => if p.1 = b.1 then (p.1, a.2) else p)) b = (b.1, a.2) := by
      simp [Function.comp, Ne.symm hab]
    rw [hfa, hfb]
  have hperm1 : (setZ (setZ l b.1 a.2) a.1 b.2).Perm
      (T ++ (a.1, b.2) :: (b.1, a.2) :: U) := by
    rw [hmap, ← hmapS]
    exact (((sortZ_perm l).map _).symm)
  have hperm2 : (T ++ (a.1, b.2) :: (b.1, a.2) :: U).Perm
      (T ++ (b.1, a.2) :: (a.1, b.2) :: U) :=
    List.Perm.append_left T (List.Perm.swap (b.1, a.2) (a.1, b.2) U)
  have hkeys : (T ++ (b.1, a.2) :: (a.1, b.2) :: U).map Prod.snd =
      (sortZ l).map Prod.snd := by
    rw [hS]
    simp
  have hsorted : List.Sorted zle (T ++ (b.1, a.2) :: (a.1, b.2) :: U) := by
    rw [sorted_zle_keys, hkeys, ← sorted_zle_keys]
    exact sortZ_sorted l
  have hndS : ((sortZ l).map Prod.snd).Nodup :=
    ((sortZ_perm l).map Prod.snd).nodup_iff.mpr hnd
  have hnd' : ((setZ (setZ l b.1 a.2) a.1 b.2).map Prod.snd).Nodup := by
    have hp := (hperm1.trans hperm2).map Prod.snd
    exact hp.nodup_iff.mpr (by rw [hkeys]; exact hndS)
  exact sortZ_eq_of_perm_sorted (hperm1.trans hperm2) hsorted hnd'

/-- `moveForward` at a decomposed sorted order: the guards pass and the
target's key is swapped with its successor's. -/
theorem moveForward_eq (l : List ZEntry) (eid : ℕ) (T U : List ZEntry)
    (a b : ZEntry) (hS : sortZ l = T ++ a :: b :: U)
    (hidx : idxOfZ eid (sortZ l) = T.length) :
    moveForward l eid = setZ (setZ l b.1 a.2) eid b.2 := by
  have h1 : nthZ (sortZ l) (idxOfZ eid (sortZ l)) = some a := by
    rw [hidx, hS]
    have := nthZ_append T (a :: b :: U) 0
    simpa [nthZ] using this
  have h2 : nthZ (sortZ l) (idxOfZ eid (sortZ l) + 1) = some b := by
    rw [hidx, hS]
    have := nthZ_append T (a :: b :: U) 1
    simpa [nthZ] using this
  simp only [moveForward, h1, h2]

/-- `moveBackward` at a decomposed sorted order: the guards pass and the
target's key is swapped with its predecessor's. -/
theorem moveBackward_eq (l : List ZEntry) (eid : ℕ) (T U : List ZEntry)
    (a b : ZEntry) (hS : sortZ l = T ++ a :: b :: U)
    (hidx : idxOfZ eid (sortZ l) = T.length + 1) :
    moveBackward l eid = setZ (setZ l a.1 b.2) eid a.2 := by
  have h0 : ¬idxOfZ eid (sortZ l) = 0 := by
    rw [hidx]
    exact Nat.succ_ne_zero _
  have h1 : nthZ (sortZ l) (idxOfZ eid (sortZ l)) = some b := by
    rw [hidx, hS]
    have := nthZ_append T (a :: b :: U) 1
    simpa [nthZ] using this
  have h2 : nthZ (sortZ l) (idxOfZ eid (sortZ l) - 1) = some a := by
    rw [hidx]
    simp only [Nat.add_sub_cancel]
    rw [hS]
    have := nthZ_append T (a :: b :: U) 0
    simpa [nthZ] using this
  simp only [moveBackward, if_neg h0, h1, h2]

/-- C8 counterexample: on the scene [(id 1, z 0), (id 2, z 1)] (distinct
keys), element 2 is already last, so `moveForward(2)` is a no-op, but the
following `moveBackward(2)` swaps it with element 1 — the z-order sequence
changes from [1, 2] to [2, 1] instead of being restored. -/
theorem zorder_roundtrip_fails_at_top :
    (sortZ (moveBackward (moveForward [((1 : ℕ), (0 : ℚ)), (2, 1)] 2) 2)).map
        Prod.fst = [2, 1] ∧
    (sortZ [((1 : ℕ), (0 : ℚ)), (2, 1)]).map Prod.fst = [1, 2] ∧
    moveBackward (moveForward [((1 : ℕ), (0 : ℚ)), (2, 1)] 2) 2 ≠
      [((1 : ℕ), (0 : ℚ)), (2, 1)] := by
  refine ⟨?_, ?_, ?_⟩ <;>
    norm_num [moveForward, moveBackward, sortZ, setZ, List.insertionSort,
      List.orderedInsert, zle, idxOfZ, nthZ]

/-- C8 (amended): with pairwise-distinct ids and pairwise-distinct stacking
keys, `moveForward` then `moveBackward` on the same element restores the
entire scene exactly — provided the element is not already last in the
sorted order (so that `moveForward` actually swaps); symmetrically,
`moveBackward` then `moveForward` restores the scene when the element is
present and not first. At the respective end of the sorted order (or when
the element is absent) each single operation is a no-op — but there the
round trip does NOT restore the order, because the second operation still
swaps (see the counterexample). -/
theorem zorder_swap_roundtrip (l : List ZEntry) (eid : ℕ)
    (hid : (l.map Prod.fst).Nodup) (hnd : (l.map Prod.snd).Nodup) :
    (idxOfZ eid (sortZ l) + 1 < l.length →
      moveBackward (moveForward l eid) eid = l) ∧
    (0 < idxOfZ eid (sortZ l) → idxOfZ eid (sortZ l) < l.length →
      moveForward (moveBackward l eid) eid = l) ∧
    (l.length ≤ idxOfZ eid (sortZ l) + 1 → moveForward l eid = l) ∧
    (idxOfZ eid (sortZ l) = 0 ∨ l.length ≤ idxOfZ eid (sortZ l) →
      moveBackward l eid = l) := by
  have hlen : (sortZ l).length = l.length := sortZ_length l
  refine ⟨?_, ?_, ?_, ?_⟩
  · -- forward, then backward
    intro h1
    have hidxlt : idxOfZ eid (sortZ l) < (sortZ l).length := by omega
    obtain ⟨T, a, U₀, hS, hlenT, ha, hTf⟩ := idxOfZ_decomp eid (sortZ l) hidxlt
    subst ha
    have hlens : l.length = T.length + (U₀.length + 1) := by
      rw [← hlen, hS]
      simp [List.length_append]
    obtain ⟨b, U, rfl⟩ : ∃ b U, U₀ = b :: U := by
      cases U₀ with
      | nil =>
          exfalso
          simp at hlens
          omega
      | cons b U => exact ⟨b, U, rfl⟩
    obtain ⟨hab, hTab, hUab⟩ := decomp_ids hid hS
    have hal : a ∈ l := (sortZ_perm l).subset (by rw [hS]; simp)
    have hbl : b ∈ l := (sortZ_perm l).subset (by rw [hS]; simp)
    have hmf : moveForward l a.1 = setZ (setZ l b.1 a.2) a.1 b.2 :=
      moveForward_eq l a.1 T U a b hS hlenT.symm
    have hS₁ : sortZ (setZ (setZ l b.1 a.2) a.1 b.2) =
        T ++ (b.1, a.2) :: (a.1, b.2) :: U := sortZ_swap l T U a b hid hnd hS
    have hidx₁ : idxOfZ a.1 (sortZ (setZ (setZ l b.1 a.2) a.1 b.2)) =
        T.length + 1 := by
      rw [hS₁, idxOfZ_append_not ((b.1, a.2) :: (a.1, b.2) :: U) a.1 hTf]
      have h2 : idxOfZ a.1 ((b.1, a.2) :: (a.1, b.2) :: U) = 1 := by
        simp [idxOfZ, Ne.symm hab]
      omega
    have hmb := moveBackward_eq (setZ (setZ l b.1 a.2) a.1 b.2) a.1 T U
      (b.1, a.2) (a.1, b.2) hS₁ hidx₁
    rw [hmf, hmb]
    simpa using setZ_restore l a b hid hal hbl hab
  · -- backward, then forward
    intro h0 hlt
    have hidxlt : idxOfZ eid (sortZ l) < (sortZ l).length := by omega
    obtain ⟨T₀, a, U, hS, hlenT, ha, hTf⟩ := idxOfZ_decomp eid (sortZ l) hidxlt
    subst ha
    have hT₀ : T₀ ≠ [] := by
      intro h
      rw [h] at hlenT
      simp at hlenT
      omega
    obtain ⟨T, c, rfl⟩ : ∃ T c, T₀ = T ++ [c] :=
      ⟨T₀.dropLast, T₀.getLast hT₀, (List.dropLast_append_getLast hT₀).symm⟩
    rw [List.append_assoc, List.singleton_append] at hS
    obtain ⟨hca, hTca, hUca⟩ := decomp_ids hid hS
    have hal : a ∈ l := (sortZ_perm l).subset (by rw [hS]; simp)
    have hcl : c ∈ l := (sortZ_perm l).subset (by rw [hS]; simp)
    have hlenT' : idxOfZ a.1 (sortZ l) = T.length + 1 := by
      rw [← hlenT]
      simp [List.length_append]
    have hmb : moveBackward l a.1 = setZ (setZ l c.1 a.2) a.1 c.2 :=
      moveBackward_eq l a.1 T U c a hS hlenT'
    have hcomm : setZ (setZ l c.1 a.2) a.1 c.2 = setZ (setZ l a.1 c.2) c.1 a.2 :=
      setZ_comm l a.2 c.2 hca
    have hS₂ : sortZ (setZ (setZ l c.1 a.2) a.1 c.2) =
        T ++ (a.1, c.2) :: (c.1, a.2) :: U := by
      rw [hcomm]
      exact sortZ_swap l T U c a hid hnd hS
    have hTfa : ∀ p ∈ T, p.1 ≠ a.1 := fun p hp => (hTca p hp).2
    have hidx₂ : idxOfZ a.1 (sortZ (setZ (setZ l c.1 a.2) a.1 c.2)) =
        T.length := by
      rw [hS₂, idxOfZ_append_not ((a.1, c.2) :: (c.1, a.2) :: U) a.1 hTfa]
      simp [idxOfZ]
    have hmf := moveForward_eq (setZ (setZ l c.1 a.2) a.1 c.2) a.1 T U
      (a.1, c.2) (c.1, a.2) hS₂ hidx₂
    rw [hmb, hmf]
    simpa using setZ_restore l a c hid hal hcl (Ne.symm hca)
  · -- no-op at the top end
    intro hle
    have h2 : nthZ (sortZ l) (idxOfZ eid (sortZ l) + 1) = none :=
      nthZ_none (by omega)
    simp only [moveForward, h2]
    cases nthZ (sortZ l) (idxOfZ eid (sortZ l)) <;> rfl
  · -- no-op at the bottom end (or absent element)
    intro h
    rcases h with h0 | hle
    · simp only [moveBackward]
      rw [if_pos h0]
    · by_cases h0 : idxOfZ eid (sortZ l) = 0
      · simp only [moveBackward]
        rw [if_pos h0]
      · have h2 : nthZ (sortZ l) (idxOfZ eid (sortZ l)) = none :=
          nthZ_none (by omega)
        simp only [moveBackward, h2]
        rw [if_neg h0]

/-- Witness for `zorder_swap_roundtrip`: on a three-element scene with
distinct ids and keys, both round trips on the middle element restore the
scene. -/
theorem zorder_swap_roundtrip_witness :
    moveBackward (moveForward [((1 : ℕ), (0 : ℚ)), (2, 1), (3, 2)] 2) 2 =
      [((1 : ℕ), (0 : ℚ)), (2, 1), (3, 2)] ∧
    moveForward (moveBackward [((1 : ℕ), (0 : ℚ)), (2, 1), (3, 2)] 2) 2 =
      [((1 : ℕ), (0 : ℚ)), (2, 1), (3, 2)] := by
  have h := zorder_swap_roundtrip [((1 : ℕ), (0 : ℚ)), (2, 1), (3, 2)] 2
    (by norm_num) (by norm_num)
  refine ⟨h.1 ?_, h.2.1 ?_ ?_⟩ <;>
    norm_num [sortZ, List.insertionSort, List.orderedInsert, zle, idxOfZ]

end PixiEditor
